import Mathlib

/-!
# Verification of the Arghonaut (Argh!) interpreter core

Shallow embedding of `src/arghonaut/interpreter.py` and `src/arghonaut/common.py`.

Modelling conventions:
* A Python value that may be `None` or an `int` (grid cells, stack entries,
  results of the bounds-checked `get`) is `Val := Option Int`; `none` is Python
  `None`.
* Partial operations (operations that can raise an uncaught Python exception,
  namely `IndexError` from list indexing, `TypeError` from comparing or adding
  `None`, and `ValueError` from `chr` on an out-of-range code) return
  `Option`; `none` is an uncaught exception.
* The Python stack appends its top at the end of the list; here the stack list
  is kept top-first (`push = cons`, `pop = tail`, `stack[-1] = head`), an
  order-reversing but otherwise exact representation.
* The `while` loop of `_jump` is modelled with explicit fuel
  (`jumpLoop`); `jumpBound` is proved sufficient for every direction the
  interpreter can actually set, so the fuel never runs out there.
* `stdout` and `stdin` hold the integer character codes; the deque front is
  the list head.
* The diagnostic strings assigned to `self.error` are represented by the
  inductive `Err`, one constructor per distinct message in the source.
-/

namespace Arghonaut

/-- A Python value stored in a cell, on the stack or returned by `get`:
`none` models Python `None`, `some n` an integer. -/
abbrev Val := Option Int

/-- The distinct diagnostic messages assigned to `self.error` in the source. -/
inductive Err where
  /-- "can't move; no direction specified" -/
  | noDirection
  /-- "moved out of bounds" -/
  | movedOutOfBounds
  /-- "jumped out of bounds" -/
  | jumpedOutOfBounds
  /-- "tried to pop from an empty stack" -/
  | stackUnderflow
  /-- "tried to print unprintable character: ..." -/
  | unprintable (c : Int)
  /-- "invalid instruction: ..." -/
  | invalidInstruction (c : Int)
  deriving DecidableEq, Repr

/-- Maximum columns (`COLUMNS = 80`). -/
def COLUMNS : Nat := 80

/-- The state of `ArghInterpreter`: the 2D code grid of integer character
codes, instruction pointer, direction, stack, I/O buffers and diagnostics. -/
structure Machine where
  code : List (List Val)
  x : Int
  y : Int
  dx : Int
  dy : Int
  /-- Stack, top first (the Python list keeps the top at the end). -/
  stack : List Val
  stdout : List Int
  /-- Input queue, front first. -/
  stdin : List Int
  needs_input : Bool
  error : Option Err
  deriving DecidableEq, Repr

/-- Python list indexing `l[i]` for an `int` index: wraps negative indices,
raises `IndexError` (here `none`) outside `-len ≤ i < len`. -/
def pyNth (l : List α) (i : Int) : Option α :=
  if 0 ≤ i then l[i.toNat]?
  else if 0 ≤ i + (l.length : Int) then l[(i + (l.length : Int)).toNat]?
  else none

/-- One grid row, built from one source line: the first `COLUMNS` character
codes of the line, space-padded (`ord " " = 32`) to exactly `COLUMNS` cells. -/
def padRow (src : List Nat) : List Val :=
  (List.range COLUMNS).map fun x =>
    match (src[x]? : Option Nat) with
    | some c => some (c : Int)
    | none => some 32

/-- `ArghInterpreter.__init__`: grid from source lines (each a list of
character codes), cursor `(0,0)`, direction `(0,0)`, everything else empty. -/
def mkMachine (code : List (List Nat)) : Machine where
  code := code.map padRow
  x := 0
  y := 0
  dx := 0
  dy := 0
  stack := []
  stdout := []
  stdin := []
  needs_input := false
  error := none

/-- `instruction` property: `self.code[self.y][self.x]`, with Python indexing.
`none` is an `IndexError`; `some v` the cell value. -/
def instruction? (m : Machine) : Option Val :=
  (pyNth m.code m.y).bind fun row => pyNth row m.x

/-- `done` property: the instruction equals `ord "q" = 113` (a `None` cell
compares unequal without raising). `none` is an `IndexError`. -/
def done? (m : Machine) : Option Bool :=
  (instruction? m).map fun v => decide (v = (some 113 : Val))

/-- `blocked` property: `done or error or needs_input` (a nonempty error
string is truthy). `none` is an `IndexError` raised while evaluating `done`. -/
def blocked? (m : Machine) : Option Bool :=
  (done? m).map fun d => d || m.error.isSome || m.needs_input

/-- `is_valid`: `0 <= y < len(code) and 0 <= x < len(code[y])`. -/
def is_valid (m : Machine) (x y : Int) : Bool :=
  decide (0 ≤ y) && decide (y < (m.code.length : Int)) &&
    decide (0 ≤ x) && decide (x < ((m.code.getD y.toNat []).length : Int))

/-- `get`: the symbol at `(x, y)` if valid, else Python `None`. A valid cell
itself holds a `Val`, so both sources of `None` collapse into `none`. -/
def get (m : Machine) (x y : Int) : Val :=
  if is_valid m x y then (m.code.getD y.toNat []).getD x.toNat none else none

/-- `put`: writes the symbol at `(x, y)` only if the coordinates are valid;
otherwise a silent no-op. -/
def put (m : Machine) (symbol : Val) (x y : Int) : Machine :=
  if is_valid m x y then
    { m with code := m.code.set y.toNat ((m.code.getD y.toNat []).set x.toNat symbol) }
  else m

/-- `_move`: advance the pointer one step in the current direction, with the
no-direction and out-of-bounds diagnostics; returns the success flag. -/
def move (m : Machine) : Machine × Bool :=
  if m.dx = 0 ∧ m.dy = 0 then ({ m with error := some .noDirection }, false)
  else if is_valid m (m.x + m.dx) (m.y + m.dy) then
    ({ m with x := m.x + m.dx, y := m.y + m.dy }, true)
  else ({ m with error := some .movedOutOfBounds }, false)

/-- The longest row length in the grid (used only to size the jump fuel). -/
def maxRowLen (m : Machine) : Nat :=
  (m.code.map List.length).foldr Nat.max 0

/-- Fuel for `jumpLoop`, strictly larger than the number of cells the scan can
visit in any one of the four cardinal directions. -/
def jumpBound (m : Machine) : Nat :=
  m.code.length + maxRowLen m + 1

/-- The `while self.instruction != self.stack[-1]` loop of `_jump`, with fuel.
`none` is either fuel exhaustion or an uncaught exception (`IndexError` from
an invalid cursor); both are proved unreachable for the states `step`
produces. -/
def jumpLoop : Nat → Machine → Option Machine
  | 0, _ => none
  | fuel + 1, m =>
    match m.stack with
    | [] => none
    | top :: _ =>
      match instruction? m with
      | none => none
      | some v =>
        if v = top then some m
        else
          match move m with
          | (m1, true) => jumpLoop fuel m1
          | (m1, false) => some { m1 with error := some .jumpedOutOfBounds }

/-- `_jump`: stack-underflow diagnostic on an empty stack; otherwise one
forced move (out-of-bounds diagnostic on failure) and then the scan loop. -/
def jump (m : Machine) : Option Machine :=
  match m.stack with
  | [] => some { m with error := some .stackUnderflow }
  | _ :: _ =>
    match move m with
    | (m1, false) => some { m1 with error := some .jumpedOutOfBounds }
    | (m1, true) => jumpLoop (jumpBound m) m1

/-- `_print`: appends `chr(char)` to stdout when `is_chr` holds
(`0 ≤ c ≤ 0x10FFFF`), sets the unprintable diagnostic otherwise; comparing
`None` inside `is_chr` raises `TypeError` (`none`). The `batch` echo to the
process stdout is outside the model. -/
def printChar (m : Machine) (char : Val) : Option Machine :=
  match char with
  | none => none
  | some c =>
    if 0 ≤ c ∧ c ≤ 1114111 then some { m with stdout := m.stdout ++ [c] }
    else some { m with error := some (.unprintable c) }

/-- `input_char`: append one code to the input queue, clear `needs_input`. -/
def input_char (m : Machine) (char : Int) : Machine :=
  { m with stdin := m.stdin ++ [char], needs_input := false }

/-- `input_string`: feed each character code in order via `input_char`. -/
def input_string (m : Machine) (s : List Nat) : Machine :=
  s.foldl (fun acc ch => input_char acc (ch : Int)) m

/-- `_delete`: pop the stack top, stack-underflow diagnostic if empty. -/
def delete (m : Machine) : Machine :=
  match m.stack with
  | [] => { m with error := some .stackUnderflow }
  | _ :: rest => { m with stack := rest }

/-- `_duplicate`: duplicate the stack top, diagnostic if empty. -/
def duplicate (m : Machine) : Machine :=
  match m.stack with
  | [] => { m with error := some .stackUnderflow }
  | top :: rest => { m with stack := top :: top :: rest }

/-- `_add`: `stack[-1] = stack[-1] + addend`, diagnostic if the stack is
empty; adding `None` raises `TypeError` (`none`). -/
def add (m : Machine) (addend : Val) : Option Machine :=
  match m.stack with
  | [] => some { m with error := some .stackUnderflow }
  | top :: rest =>
    match top, addend with
    | some a, some b => some { m with stack := some (a + b) :: rest }
    | _, _ => none

/-- `_subtract`: `stack[-1] = stack[-1] - subtrahend`, diagnostic if the
stack is empty; subtracting `None` raises `TypeError` (`none`). -/
def subtract (m : Machine) (subtrahend : Val) : Option Machine :=
  match m.stack with
  | [] => some { m with error := some .stackUnderflow }
  | top :: rest =>
    match top, subtrahend with
    | some a, some b => some { m with stack := some (a - b) :: rest }
    | _, _ => none

/-- `_rotate`: swap `dx` and `dy`, then negate `dx` (clockwise) or `dy`
(counter-clockwise). -/
def rotate (m : Machine) (clockwise : Bool) : Machine :=
  let m1 := { m with dx := m.dy, dy := m.dx }
  if clockwise then { m1 with dx := -m1.dx } else { m1 with dy := -m1.dy }

/-- The `elif` dispatch chain of `step`, applied to the machine after the
printability check and to the instruction code `c` (already known to be a
valid `chr` argument). `none` is an uncaught exception inside a handler. -/
def dispatch (m : Machine) (c : Int) : Option Machine :=
  -- "h": set direction to left
  if c = 104 then some { m with dx := -1, dy := 0 }
  -- "l": set direction to right
  else if c = 108 then some { m with dx := 1, dy := 0 }
  -- "k": set direction to up
  else if c = 107 then some { m with dx := 0, dy := -1 }
  -- "j": set direction to down
  else if c = 106 then some { m with dx := 0, dy := 1 }
  -- "H": jump left
  else if c = 72 then jump { m with dx := -1, dy := 0 }
  -- "L": jump right
  else if c = 76 then jump { m with dx := 1, dy := 0 }
  -- "K": jump up
  else if c = 75 then jump { m with dx := 0, dy := -1 }
  -- "J": jump down
  else if c = 74 then jump { m with dx := 0, dy := 1 }
  -- "P": print above
  else if c = 80 then printChar m (get m m.x (m.y - 1))
  -- "p": print below
  else if c = 112 then printChar m (get m m.x (m.y + 1))
  -- "G": input above, or block
  else if c = 71 then some (match m.stdin with
    | [] => { m with needs_input := true }
    | ch :: rest => put { m with stdin := rest } (some ch) m.x (m.y - 1))
  -- "g": input below, or block
  else if c = 103 then some (match m.stdin with
    | [] => { m with needs_input := true }
    | ch :: rest => put { m with stdin := rest } (some ch) m.x (m.y + 1))
  -- "D": delete the stack top
  else if c = 68 then some (delete m)
  -- "d": duplicate the stack top
  else if c = 100 then some (duplicate m)
  -- "E": put EOT (4) above
  else if c = 69 then some (put m (some 4) m.x (m.y - 1))
  -- "e": put EOT (4) below
  else if c = 101 then some (put m (some 4) m.x (m.y + 1))
  -- "F": pop above
  else if c = 70 then some (match m.stack with
    | [] => { m with error := some .stackUnderflow }
    | v :: rest => put { m with stack := rest } v m.x (m.y - 1))
  -- "f": pop below
  else if c = 102 then some (match m.stack with
    | [] => { m with error := some .stackUnderflow }
    | v :: rest => put { m with stack := rest } v m.x (m.y + 1))
  -- "A": add above
  else if c = 65 then add m (get m m.x (m.y - 1))
  -- "a": add below
  else if c = 97 then add m (get m m.x (m.y + 1))
  -- "R": subtract above
  else if c = 82 then subtract m (get m m.x (m.y - 1))
  -- "r": subtract below
  else if c = 114 then subtract m (get m m.x (m.y + 1))
  -- "S": push above (pushes whatever `get` returned, possibly `None`)
  else if c = 83 then some { m with stack := get m m.x (m.y - 1) :: m.stack }
  -- "s": push below
  else if c = 115 then some { m with stack := get m m.x (m.y + 1) :: m.stack }
  -- "X": rotate counter-clockwise if the stack top is negative
  else if c = 88 then
    match m.stack with
    | [] => some { m with error := some .stackUnderflow }
    | none :: _ => none
    | some t :: _ => some (if t < 0 then rotate m false else m)
  -- "x": rotate clockwise if the stack top is positive
  else if c = 120 then
    match m.stack with
    | [] => some { m with error := some .stackUnderflow }
    | none :: _ => none
    | some t :: _ => some (if 0 < t then rotate m true else m)
  -- "#" at the origin with "!" to its right: behave as "j"
  else if c = 35 ∧ m.x = 0 ∧ m.y = 0 ∧ get m 1 0 = some 33 then
    some { m with dx := 0, dy := 1 }
  -- anything other than "q": invalid instruction
  else if c ≠ 113 then some { m with error := some (.invalidInstruction c) }
  else some m

/-- `step`: no-op when blocked (`none` if reading `blocked` raises); reads
the instruction (comparing a `None` cell in `is_printable` raises); sets the
invalid-instruction diagnostic for codes outside 32..126 but still continues
to `chr(instruction)`, which raises `ValueError` (`none`) outside
0..0x10FFFF; then dispatches and finally moves if still not blocked. -/
def step (m : Machine) : Option Machine :=
  match blocked? m with
  | none => none
  | some true => some m
  | some false =>
    match instruction? m with
    | none => none
    | some none => none
    | some (some c) =>
      let m1 := if ¬(32 ≤ c ∧ c ≤ 126) then
        { m with error := some (.invalidInstruction c) } else m
      if c < 0 ∨ 1114111 < c then none
      else
        match dispatch m1 c with
        | none => none
        | some m2 =>
          match blocked? m2 with
          | none => none
          | some true => some m2
          | some false => some (move m2).1

/-- `chr` applied to one cell: raises (`none`) if the cell is `None`
(`TypeError`) or outside 0..0x10FFFF (`ValueError`). -/
def chrCell (v : Val) : Option Nat :=
  match v with
  | some c => if 0 ≤ c ∧ c ≤ 1114111 then some c.toNat else none
  | none => none

/-- `code_to_string`: each row rendered character by character through
`chr`. -/
def code_to_string (m : Machine) : Option (List (List Nat)) :=
  m.code.mapM fun row => row.mapM chrCell

/-- The machine states reachable from construction through the public
operations `step`, `input_char` and `input_string`. -/
inductive Reachable : Machine → Prop where
  | init (code : List (List Nat)) : Reachable (mkMachine code)
  | step {m m' : Machine} : Reachable m → step m = some m' → Reachable m'
  | input_char {m : Machine} (ch : Int) : Reachable m → Reachable (input_char m ch)
  | input_string {m : Machine} (s : List Nat) : Reachable m →
      Reachable (input_string m s)

/-! ## Basic lemmas about the observables -/

theorem blocked?_eq_of_instruction {m : Machine} {v : Val}
    (h : instruction? m = some v) :
    blocked? m = some (decide (v = (some 113 : Val)) || m.error.isSome ||
      m.needs_input) := by
  simp [blocked?, done?, h]

theorem of_blocked?_false {m : Machine} (h : blocked? m = some false) :
    m.error = none ∧ m.needs_input = false := by
  rcases hi : instruction? m with _ | v
  · simp [blocked?, done?, hi] at h
  · rw [blocked?_eq_of_instruction hi] at h
    simp only [Option.some_inj, Bool.or_eq_false_iff, decide_eq_false_iff_not] at h
    exact ⟨Option.not_isSome_iff_eq_none.mp (by simp [h.1.2]), h.2⟩

theorem instruction?_congr {m m' : Machine} (hc : m'.code = m.code)
    (hx : m'.x = m.x) (hy : m'.y = m.y) :
    instruction? m' = instruction? m := by
  unfold instruction?
  rw [hc, hx, hy]

theorem blocked?_eq_true_of_error {m : Machine} {v : Val} {e : Err}
    (hi : instruction? m = some v) (he : m.error = some e) :
    blocked? m = some true := by
  rw [blocked?_eq_of_instruction hi, he]
  simp

/-- Unfolds `step` on a non-blocked machine whose instruction is a printable
code, down to the dispatch and the final conditional move. -/
theorem step_eq_dispatch {m : Machine} {c : Int} (hb : blocked? m = some false)
    (hi : instruction? m = some (some c)) (h1 : 32 ≤ c) (h2 : c ≤ 126) :
    step m = match dispatch m c with
      | none => none
      | some m2 =>
        match blocked? m2 with
        | none => none
        | some true => some m2
        | some false => some (move m2).1 := by
  simp only [step, hb, hi]
  rw [if_neg (not_not_intro ⟨h1, h2⟩), if_neg (by omega : ¬(c < 0 ∨ 1114111 < c))]

theorem move_preserves (m : Machine) :
    (move m).1.code = m.code ∧ (move m).1.dx = m.dx ∧ (move m).1.dy = m.dy ∧
      (move m).1.stack = m.stack ∧ (move m).1.stdout = m.stdout ∧
      (move m).1.stdin = m.stdin ∧ (move m).1.needs_input = m.needs_input := by
  unfold move
  split_ifs <;> simp

/-! ## C4: `step` on a blocked machine is a no-op -/

/-- C4. For every state in which the `blocked` property evaluates to true
(`done`, a set error, or `needs_input`), `step()` returns at once: the
resulting machine is identical to the input, so the grid, cursor, direction,
stack, input queue, output buffer, and all diagnostic flags are unchanged. -/
theorem step_blocked_no_op (m : Machine) (h : blocked? m = some true) :
    step m = some m := by
  rw [step, h]

/-- Witness for C4 at the machine built from the single line `"q"`,
which is blocked because `done` holds. -/
theorem step_blocked_no_op_witness :
    blocked? (mkMachine [[113]]) = some true ∧
      step (mkMachine [[113]]) = some (mkMachine [[113]]) :=
  ⟨by decide, step_blocked_no_op (mkMachine [[113]]) (by decide)⟩

/-! ## C10: the empty program -/

/-- C10. Construction from an empty sequence of source lines yields a grid
with zero rows and the cursor still at `(0,0)`; reading the cursor cell is
then impossible, so `done`, `blocked` and hence `step()` all raise
(`none` models the uncaught `IndexError`) instead of returning a value or
setting a diagnostic. -/
theorem empty_program_raises :
    (mkMachine []).code = [] ∧ (mkMachine []).x = 0 ∧ (mkMachine []).y = 0 ∧
      done? (mkMachine []) = none ∧ blocked? (mkMachine []) = none ∧
      step (mkMachine []) = none := by
  refine ⟨rfl, rfl, rfl, rfl, rfl, rfl⟩

/-! ## C3: non-printable instruction codes -/

/-- C3 (failing input). A non-blocked machine whose cursor cell holds the
code `-1` (outside printable ASCII 32..126): `step()` assigns the
invalid-instruction diagnostic but then still evaluates `chr(instruction)`,
which raises `ValueError` for a negative code — the call raises an uncaught
exception (`none`) instead of returning with the diagnostic set, contrary to
the claim that `step()` never raises. -/
theorem step_unrepresentable_code_raises :
    blocked? (⟨[[some (-1)]], 0, 0, 0, 0, [], [], [], false, none⟩ : Machine)
        = some false ∧
      step (⟨[[some (-1)]], 0, 0, 0, 0, [], [], [], false, none⟩ : Machine)
        = none := by
  exact ⟨rfl, rfl⟩

/-! ## C2: the blocking-input scenario on the one-line program `"G"` -/

/-- C2 (counterexample). In the spec scenario — source `"G"`, empty input
queue, one `step()`, then `input_char('A')`, then another `step()` — the
second `step()` does not advance the cursor: the direction is still `(0,0)`,
so the final move fails with the no-direction diagnostic and the cursor stays
at `(0,0)`, refuting the claim that the cursor advances. -/
theorem input_scenario_cursor_not_advanced :
    ((step (mkMachine [[71]])).bind fun m1 =>
        (step (input_char m1 65)).map fun m2 => (m2.x, m2.y, m2.error))
      = some (0, 0, some Err.noDirection) := by
  decide

/-- C2 (amended). Source `"G"` with an empty input queue: the first `step()`
leaves `needs_input` true with the cursor at `(0,0)`; `input_char` then
clears `needs_input`; the next `step()` writes the supplied code into the
cell above the cursor — a no-op here because that cell is out of bounds, so
the grid is unchanged — but does not advance the cursor: no direction was
ever set, so the no-direction diagnostic is set and the cursor stays at
`(0,0)`. -/
theorem input_scenario_spec :
    ((step (mkMachine [[71]])).map fun m1 => (m1.needs_input, m1.x, m1.y))
        = some (true, 0, 0) ∧
      ((step (mkMachine [[71]])).map fun m1 => (input_char m1 65).needs_input)
        = some false ∧
      ((step (mkMachine [[71]])).bind fun m1 =>
          (step (input_char m1 65)).map Machine.code)
        = some (mkMachine [[71]]).code ∧
      ((step (mkMachine [[71]])).bind fun m1 =>
          (step (input_char m1 65)).map fun m2 => (m2.x, m2.y, m2.error))
        = some (0, 0, some Err.noDirection) := by
  refine ⟨by decide, by decide, by decide, by decide⟩

theorem blocked?_same_obs {m2 m : Machine} (hc : m2.code = m.code)
    (hx : m2.x = m.x) (hy : m2.y = m.y) (he : m2.error = m.error)
    (hn : m2.needs_input = m.needs_input) :
    blocked? m2 = blocked? m := by
  unfold blocked? done?
  rw [instruction?_congr hc hx hy, he, hn]

theorem rotate_false_eq (m : Machine) :
    rotate m false = { m with dx := m.dy, dy := -m.dx } := rfl

theorem rotate_true_eq (m : Machine) :
    rotate m true = { m with dx := -m.dy, dy := m.dx } := rfl

/-! ## C1: the conditional rotate instructions `X` and `x` -/

/-- C1. From any non-blocked state: instruction `X` with a negative stack top
turns the direction `(dx,dy)` into `(dy,-dx)` (counter-clockwise), and with a
zero-or-positive integer top leaves the direction unchanged; instruction `x`
with a positive stack top turns `(dx,dy)` into `(-dy,dx)` (clockwise), and
with a zero-or-negative integer top leaves the direction unchanged; with an
empty stack both set the stack-underflow diagnostic (and nothing else
changes). -/
theorem step_conditional_rotate_spec (m : Machine)
    (hb : blocked? m = some false) :
    (instruction? m = some (some 88) →
      (∀ t rest, m.stack = some t :: rest → t < 0 →
        ∃ m', step m = some m' ∧ m'.dx = m.dy ∧ m'.dy = -m.dx) ∧
      (∀ t rest, m.stack = some t :: rest → 0 ≤ t →
        ∃ m', step m = some m' ∧ m'.dx = m.dx ∧ m'.dy = m.dy) ∧
      (m.stack = [] →
        step m = some { m with error := some Err.stackUnderflow })) ∧
    (instruction? m = some (some 120) →
      (∀ t rest, m.stack = some t :: rest → 0 < t →
        ∃ m', step m = some m' ∧ m'.dx = -m.dy ∧ m'.dy = m.dx) ∧
      (∀ t rest, m.stack = some t :: rest → t ≤ 0 →
        ∃ m', step m = some m' ∧ m'.dx = m.dx ∧ m'.dy = m.dy) ∧
      (m.stack = [] →
        step m = some { m with error := some Err.stackUnderflow })) := by
  obtain ⟨herr, hni⟩ := of_blocked?_false hb
  constructor
  · intro hi
    refine ⟨?_, ?_, ?_⟩
    · intro t rest hs ht
      have hd : dispatch m 88 = some (rotate m false) := by
        simp [dispatch, hs, ht]
      have hb2 : blocked? (rotate m false) = some false := by
        have h5 : blocked? (rotate m false) = blocked? m :=
          blocked?_same_obs rfl rfl rfl rfl rfl
        rw [h5, hb]
      refine ⟨(move (rotate m false)).1, ?_, ?_, ?_⟩
      · rw [step_eq_dispatch hb hi (by norm_num) (by norm_num)]
        simp only [hd, hb2]
      · exact ((move_preserves (rotate m false)).2.1).trans rfl
      · exact ((move_preserves (rotate m false)).2.2.1).trans rfl
    · intro t rest hs ht
      have hd : dispatch m 88 = some m := by
        simp [dispatch, hs, not_lt.mpr ht]
      refine ⟨(move m).1, ?_, ?_, ?_⟩
      · rw [step_eq_dispatch hb hi (by norm_num) (by norm_num)]
        simp only [hd, hb]
      · exact (move_preserves m).2.1
      · exact (move_preserves m).2.2.1
    · intro hs
      have hd : dispatch m 88 =
          some { m with error := some Err.stackUnderflow } := by
        simp [dispatch, hs]
      have h5 : instruction? { m with error := some Err.stackUnderflow }
          = instruction? m := instruction?_congr rfl rfl rfl
      have hb2 : blocked? { m with error := some Err.stackUnderflow }
          = some true :=
        blocked?_eq_true_of_error (h5.trans hi) rfl
      rw [step_eq_dispatch hb hi (by norm_num) (by norm_num)]
      simp only [hd, hb2]
  · intro hi
    refine ⟨?_, ?_, ?_⟩
    · intro t rest hs ht
      have hd : dispatch m 120 = some (rotate m true) := by
        simp [dispatch, hs, ht]
      have hb2 : blocked? (rotate m true) = some false := by
        have h5 : blocked? (rotate m true) = blocked? m :=
          blocked?_same_obs rfl rfl rfl rfl rfl
        rw [h5, hb]
      refine ⟨(move (rotate m true)).1, ?_, ?_, ?_⟩
      · rw [step_eq_dispatch hb hi (by norm_num) (by norm_num)]
        simp only [hd, hb2]
      · exact ((move_preserves (rotate m true)).2.1).trans rfl
      · exact ((move_preserves (rotate m true)).2.2.1).trans rfl
    · intro t rest hs ht
      have hd : dispatch m 120 = some m := by
        simp [dispatch, hs, not_lt.mpr ht]
      refine ⟨(move m).1, ?_, ?_, ?_⟩
      · rw [step_eq_dispatch hb hi (by norm_num) (by norm_num)]
        simp only [hd, hb]
      · exact (move_preserves m).2.1
      · exact (move_preserves m).2.2.1
    · intro hs
      have hd : dispatch m 120 =
          some { m with error := some Err.stackUnderflow } := by
        simp [dispatch, hs]
      have h5 : instruction? { m with error := some Err.stackUnderflow }
          = instruction? m := instruction?_congr rfl rfl rfl
      have hb2 : blocked? { m with error := some Err.stackUnderflow }
          = some true :=
        blocked?_eq_true_of_error (h5.trans hi) rfl
      rw [step_eq_dispatch hb hi (by norm_num) (by norm_num)]
      simp only [hd, hb2]

/-- Witness for C1: a machine on instruction `X`, direction `(1,0)`,
stack top `-1`; the direction after `step` is `(0,-1)`. -/
theorem step_conditional_rotate_spec_witness :
    blocked? (⟨[[some 88, some 32]], 0, 0, 1, 0, [some (-1)], [], [], false,
        none⟩ : Machine) = some false ∧
      ∃ m', step (⟨[[some 88, some 32]], 0, 0, 1, 0, [some (-1)], [], [],
          false, none⟩ : Machine) = some m' ∧ m'.dx = 0 ∧ m'.dy = -1 :=
  ⟨by decide,
    ((step_conditional_rotate_spec _ (by decide)).1 (by decide)).1
      (-1) [] rfl (by decide)⟩

/-! ## C7: empty-stack checks on every popping or top-reading instruction -/

theorem step_underflow_aux {m m2 : Machine} {c : Int}
    (hb : blocked? m = some false) (hi : instruction? m = some (some c))
    (h1 : 32 ≤ c) (h2 : c ≤ 126) (hd : dispatch m c = some m2)
    (hc2 : m2.code = m.code) (hx2 : m2.x = m.x) (hy2 : m2.y = m.y)
    (he2 : m2.error = some Err.stackUnderflow) (hs2 : m2.stack = m.stack) :
    ∃ m', step m = some m' ∧ m'.error = some Err.stackUnderflow ∧
      m'.stack = m.stack := by
  have h5 : instruction? m2 = instruction? m := instruction?_congr hc2 hx2 hy2
  have hb2 : blocked? m2 = some true :=
    blocked?_eq_true_of_error (h5.trans hi) he2
  refine ⟨m2, ?_, he2, hs2⟩
  rw [step_eq_dispatch hb hi h1 h2]
  simp only [hd, hb2]

/-- C7. The stack is a list, so its length is never negative; moreover every
instruction that pops (`D`, `F`, `f`) or reads the stack top (`d`, `A`, `a`,
`R`, `r`, `X`, `x`, and the jumps `H`/`L`/`K`/`J`), executed from a
non-blocked state with an empty stack, sets the stack-underflow diagnostic
instead of underflowing, and leaves the stack unchanged (still empty). -/
theorem step_stack_underflow_safe (m : Machine) (c : Int)
    (hb : blocked? m = some false) (hi : instruction? m = some (some c))
    (hc : c ∈ ([68, 100, 70, 102, 65, 97, 82, 114, 88, 120, 72, 76, 75, 74] :
      List Int))
    (hs : m.stack = []) :
    ∃ m', step m = some m' ∧ m'.error = some Err.stackUnderflow ∧
      m'.stack = m.stack ∧ 0 ≤ m'.stack.length := by
  have key : ∃ m', step m = some m' ∧ m'.error = some Err.stackUnderflow ∧
      m'.stack = m.stack := by
    simp only [List.mem_cons, List.not_mem_nil, or_false] at hc
    rcases hc with h | h | h | h | h | h | h | h | h | h | h | h | h | h <;>
        subst h
    · have hd : dispatch m 68 =
          some { m with error := some Err.stackUnderflow } := by
        simp [dispatch, delete, hs]
      exact step_underflow_aux hb hi (by norm_num) (by norm_num) hd
        rfl rfl rfl rfl rfl
    · have hd : dispatch m 100 =
          some { m with error := some Err.stackUnderflow } := by
        simp [dispatch, duplicate, hs]
      exact step_underflow_aux hb hi (by norm_num) (by norm_num) hd
        rfl rfl rfl rfl rfl
    · have hd : dispatch m 70 =
          some { m with error := some Err.stackUnderflow } := by
        simp [dispatch, hs]
      exact step_underflow_aux hb hi (by norm_num) (by norm_num) hd
        rfl rfl rfl rfl rfl
    · have hd : dispatch m 102 =
          some { m with error := some Err.stackUnderflow } := by
        simp [dispatch, hs]
      exact step_underflow_aux hb hi (by norm_num) (by norm_num) hd
        rfl rfl rfl rfl rfl
    · have hd : dispatch m 65 =
          some { m with error := some Err.stackUnderflow } := by
        simp [dispatch, add, hs]
      exact step_underflow_aux hb hi (by norm_num) (by norm_num) hd
        rfl rfl rfl rfl rfl
    · have hd : dispatch m 97 =
          some { m with error := some Err.stackUnderflow } := by
        simp [dispatch, add, hs]
      exact step_underflow_aux hb hi (by norm_num) (by norm_num) hd
        rfl rfl rfl rfl rfl
    · have hd : dispatch m 82 =
          some { m with error := some Err.stackUnderflow } := by
        simp [dispatch, subtract, hs]
      exact step_underflow_aux hb hi (by norm_num) (by norm_num) hd
        rfl rfl rfl rfl rfl
    · have hd : dispatch m 114 =
          some { m with error := some Err.stackUnderflow } := by
        simp [dispatch, subtract, hs]
      exact step_underflow_aux hb hi (by norm_num) (by norm_num) hd
        rfl rfl rfl rfl rfl
    · have hd : dispatch m 88 =
          some { m with error := some Err.stackUnderflow } := by
        simp [dispatch, hs]
      exact step_underflow_aux hb hi (by norm_num) (by norm_num) hd
        rfl rfl rfl rfl rfl
    · have hd : dispatch m 120 =
          some { m with error := some Err.stackUnderflow } := by
        simp [dispatch, hs]
      exact step_underflow_aux hb hi (by norm_num) (by norm_num) hd
        rfl rfl rfl rfl rfl
    · have hd : dispatch m 72 =
          some { m with dx := -1, dy := 0, error := some Err.stackUnderflow } := by
        simp [dispatch, jump, hs]
      exact step_underflow_aux hb hi (by norm_num) (by norm_num) hd
        rfl rfl rfl rfl rfl
    · have hd : dispatch m 76 =
          some { m with dx := 1, dy := 0, error := some Err.stackUnderflow } := by
        simp [dispatch, jump, hs]
      exact step_underflow_aux hb hi (by norm_num) (by norm_num) hd
        rfl rfl rfl rfl rfl
    · have hd : dispatch m 75 =
          some { m with dx := 0, dy := -1, error := some Err.stackUnderflow } := by
        simp [dispatch, jump, hs]
      exact step_underflow_aux hb hi (by norm_num) (by norm_num) hd
        rfl rfl rfl rfl rfl
    · have hd : dispatch m 74 =
          some { m with dx := 0, dy := 1, error := some Err.stackUnderflow } := by
        simp [dispatch, jump, hs]
      exact step_underflow_aux hb hi (by norm_num) (by norm_num) hd
        rfl rfl rfl rfl rfl
  obtain ⟨m', h1, h2, h3⟩ := key
  exact ⟨m', h1, h2, h3, by positivity⟩

/-- Witness for C7: instruction `D` on an empty stack. -/
theorem step_stack_underflow_safe_witness :
    ∃ m', step (⟨[[some 68]], 0, 0, 0, 0, [], [], [], false, none⟩ : Machine)
        = some m' ∧ m'.error = some Err.stackUnderflow ∧
      m'.stack = [] ∧ 0 ≤ m'.stack.length :=
  step_stack_underflow_safe _ 68 (by decide) (by decide) (by decide) rfl

/-! ## C8: the push instructions and the missing-value edge case -/

/-- C8 (counterexample). The machine built from the single line `"S"`: the
cell above the cursor is out of bounds, so `get` returns Python `None`, and
`step` pushes that `None` — a non-integer — onto the stack, refuting the
claim that `S` never places a non-integer value on the stack. -/
theorem push_out_of_bounds_pushes_none :
    (step (mkMachine [[83]])).map Machine.stack = some [none] := by
  decide

/-- C8 (amended). The stack holds Python values that are either integers or
`None`: executing `S` (`s`) from a non-blocked state pushes exactly the value
`get` returns for the cell above (below) the cursor, and when that cell is
out of bounds this value is `None`, not an integer. -/
theorem step_push_spec (m : Machine) (hb : blocked? m = some false) :
    (instruction? m = some (some 83) →
      ∃ m', step m = some m' ∧ m'.stack = get m m.x (m.y - 1) :: m.stack ∧
        (is_valid m m.x (m.y - 1) = false → m'.stack = none :: m.stack)) ∧
    (instruction? m = some (some 115) →
      ∃ m', step m = some m' ∧ m'.stack = get m m.x (m.y + 1) :: m.stack ∧
        (is_valid m m.x (m.y + 1) = false → m'.stack = none :: m.stack)) := by
  constructor
  · intro hi
    have hd : dispatch m 83 =
        some { m with stack := get m m.x (m.y - 1) :: m.stack } := by
      simp [dispatch]
    have hb2 : blocked? { m with stack := get m m.x (m.y - 1) :: m.stack }
        = some false := by
      have h5 : blocked? { m with stack := get m m.x (m.y - 1) :: m.stack }
          = blocked? m := blocked?_same_obs rfl rfl rfl rfl rfl
      rw [h5, hb]
    refine ⟨(move { m with stack := get m m.x (m.y - 1) :: m.stack }).1, ?_,
      ?_, ?_⟩
    · rw [step_eq_dispatch hb hi (by norm_num) (by norm_num)]
      simp only [hd, hb2]
    · exact (move_preserves _).2.2.2.1
    · intro hv
      rw [(move_preserves _).2.2.2.1]
      unfold get
      rw [hv]
      simp
  · intro hi
    have hd : dispatch m 115 =
        some { m with stack := get m m.x (m.y + 1) :: m.stack } := by
      simp [dispatch]
    have hb2 : blocked? { m with stack := get m m.x (m.y + 1) :: m.stack }
        = some false := by
      have h5 : blocked? { m with stack := get m m.x (m.y + 1) :: m.stack }
          = blocked? m := blocked?_same_obs rfl rfl rfl rfl rfl
      rw [h5, hb]
    refine ⟨(move { m with stack := get m m.x (m.y + 1) :: m.stack }).1, ?_,
      ?_, ?_⟩
    · rw [step_eq_dispatch hb hi (by norm_num) (by norm_num)]
      simp only [hd, hb2]
    · exact (move_preserves _).2.2.2.1
    · intro hv
      rw [(move_preserves _).2.2.2.1]
      unfold get
      rw [hv]
      simp

/-- Witness for C8's amended theorem at the machines built from `"S"` and
from `"s"` (the adjacent cell is out of bounds in both). -/
theorem step_push_spec_witness :
    blocked? (mkMachine [[83]]) = some false ∧
      (∃ m', step (mkMachine [[83]]) = some m' ∧
        m'.stack = get (mkMachine [[83]]) (mkMachine [[83]]).x
          ((mkMachine [[83]]).y - 1) :: (mkMachine [[83]]).stack ∧
        (is_valid (mkMachine [[83]]) (mkMachine [[83]]).x
            ((mkMachine [[83]]).y - 1) = false →
          m'.stack = none :: (mkMachine [[83]]).stack)) ∧
      blocked? (mkMachine [[115]]) = some false ∧
      (∃ m', step (mkMachine [[115]]) = some m' ∧
        m'.stack = get (mkMachine [[115]]) (mkMachine [[115]]).x
          ((mkMachine [[115]]).y + 1) :: (mkMachine [[115]]).stack ∧
        (is_valid (mkMachine [[115]]) (mkMachine [[115]]).x
            ((mkMachine [[115]]).y + 1) = false →
          m'.stack = none :: (mkMachine [[115]]).stack)) :=
  ⟨by decide, (step_push_spec _ (by decide)).1 (by decide), by decide,
    (step_push_spec _ (by decide)).2 (by decide)⟩

/-! ## C6: serialisation round trip -/

theorem mapM_eq_some_map {α β : Type} (f : α → Option β) (g : α → β) :
    ∀ l : List α, (∀ a ∈ l, f a = some (g a)) → l.mapM f = some (l.map g) := by
  intro l
  induction l with
  | nil => intro _; rfl
  | cons a l ih =>
    intro h
    rw [List.mapM_cons, h a (by simp), ih fun b hb => h b (by simp [hb])]
    rfl

theorem padRow_eq (src : List Nat) :
    padRow src = (List.range COLUMNS).map
      fun x => some ((src.getD x 32 : Nat) : Int) := by
  unfold padRow
  refine List.map_congr_left fun x _ => ?_
  rcases h : (src[x]? : Option Nat) with _ | c <;>
    simp [List.getD_eq_getElem?_getD, h]

theorem chrCell_of_padRow (src : List Nat) (hb : ∀ c ∈ src, c ≤ 1114111) :
    ∀ v ∈ padRow src, chrCell v = some ((v.getD 0).toNat) := by
  intro v hv
  rw [padRow_eq] at hv
  simp only [List.mem_map, List.mem_range] at hv
  obtain ⟨x, hx, rfl⟩ := hv
  have hle : src.getD x 32 ≤ 1114111 := by
    rcases h : (src[x]? : Option Nat) with _ | c
    · simp [List.getD_eq_getElem?_getD, h]
    · have hmem : c ∈ src := by
        obtain ⟨hlt, hEq⟩ := List.getElem?_eq_some.mp h
        exact hEq ▸ List.getElem_mem hlt
      simpa [List.getD_eq_getElem?_getD, h] using hb c hmem
  simp only [chrCell]
  rw [if_pos ⟨by positivity, by exact_mod_cast hle⟩]
  simp

theorem map_getD_padRow (src : List Nat) :
    (padRow src).map (fun v => (v.getD 0).toNat) =
      (List.range COLUMNS).map fun x => src.getD x 32 := by
  rw [padRow_eq, List.map_map]
  refine List.map_congr_left fun x _ => ?_
  simp

theorem padRow_serRow (src : List Nat) :
    padRow ((List.range COLUMNS).map fun x => src.getD x 32) = padRow src := by
  rw [padRow_eq src]
  unfold padRow
  refine List.map_congr_left fun x hx => ?_
  rw [List.mem_range] at hx
  rw [List.getElem?_map]
  simp [List.getElem?_range hx]

/-- C6. For any sequence of source lines (each of length at most 80 and made
of the character codes a Python string can hold), serialising the constructed
grid with `code_to_string` succeeds, and re-parsing the resulting row strings
with the constructor reproduces the grid exactly, cell for cell. -/
theorem code_round_trip (lines : List (List Nat))
    (hlen : ∀ l ∈ lines, l.length ≤ 80)
    (hval : ∀ l ∈ lines, ∀ c ∈ l, c ≤ 1114111) :
    ∃ out, code_to_string (mkMachine lines) = some out ∧
      (mkMachine out).code = (mkMachine lines).code := by
  refine ⟨lines.map fun l => (List.range COLUMNS).map fun x => l.getD x 32,
    ?_, ?_⟩
  · show (lines.map padRow).mapM (fun row => row.mapM chrCell) = _
    rw [mapM_eq_some_map (fun row => row.mapM chrCell)
      (fun row => row.map fun v => (v.getD 0).toNat) (lines.map padRow) ?_]
    · rw [List.map_map]
      refine congrArg some (List.map_congr_left fun l _ => ?_)
      exact map_getD_padRow l
    · intro row hrow
      rw [List.mem_map] at hrow
      obtain ⟨l, hl, rfl⟩ := hrow
      exact mapM_eq_some_map chrCell (fun v => (v.getD 0).toNat) (padRow l)
        (chrCell_of_padRow l (hval l hl))
  · show (lines.map fun l => (List.range COLUMNS).map fun x =>
        l.getD x 32).map padRow = lines.map padRow
    rw [List.map_map]
    exact List.map_congr_left fun l _ => padRow_serRow l

/-- Witness for C6 at the two-character source line `"hq"`. -/
theorem code_round_trip_witness :
    (∀ l ∈ ([[104, 113]] : List (List Nat)), l.length ≤ 80) ∧
      (∀ l ∈ ([[104, 113]] : List (List Nat)), ∀ c ∈ l, c ≤ 1114111) ∧
      ∃ out, code_to_string (mkMachine [[104, 113]]) = some out ∧
        (mkMachine out).code = (mkMachine [[104, 113]]).code :=
  ⟨by decide, by decide, code_round_trip _ (by decide) (by decide)⟩

/-! ## C5: the jump scan terminates -/

/-- The four direction vectors the instructions `h l k j H L K J` can set
(`y` grows downward). -/
def unitDir (m : Machine) : Prop :=
  (m.dx = -1 ∧ m.dy = 0) ∨ (m.dx = 1 ∧ m.dy = 0) ∨
    (m.dx = 0 ∧ m.dy = -1) ∨ (m.dx = 0 ∧ m.dy = 1)

instance (m : Machine) : Decidable (unitDir m) := by
  unfold unitDir
  infer_instance

/-- Distance of the cursor to the grid edge ahead of it; strictly decreases
at every successful move in a cardinal direction. -/
def mu (m : Machine) : Nat :=
  (if 0 < m.dx then maxRowLen m - m.x.toNat else m.x.toNat) +
    (if 0 < m.dy then m.code.length - m.y.toNat else m.y.toNat)

theorem le_foldr_max (l : List Nat) (a : Nat) (h : a ∈ l) :
    a ≤ l.foldr Nat.max 0 := by
  induction l with
  | nil => cases h
  | cons b l ih =>
    rcases List.mem_cons.mp h with rfl | h
    · exact Nat.le_max_left _ _
    · exact le_trans (ih h) (Nat.le_max_right _ _)

theorem is_valid_iff {m : Machine} {x y : Int} :
    is_valid m x y = true ↔ 0 ≤ y ∧ (y : Int) < m.code.length ∧ 0 ≤ x ∧
      (x : Int) < ((m.code.getD y.toNat []).length : Int) := by
  simp [is_valid, and_assoc]

theorem rowLen_le_maxRowLen {m : Machine} {i : Nat} (h : i < m.code.length) :
    (m.code.getD i []).length ≤ maxRowLen m := by
  rw [List.getD_eq_getElem _ _ h]
  exact le_foldr_max _ _ (List.mem_map.mpr ⟨_, List.getElem_mem h, rfl⟩)

theorem instruction?_of_valid {m : Machine} (h : is_valid m m.x m.y = true) :
    instruction? m = some ((m.code.getD m.y.toNat []).getD m.x.toNat none) := by
  obtain ⟨hy0, hylt, hx0, hxlt⟩ := is_valid_iff.mp h
  have hylt' : m.y.toNat < m.code.length := by omega
  have hxlt' : m.x.toNat < (m.code.getD m.y.toNat []).length := by omega
  have hrow : m.code.getD m.y.toNat [] = m.code[m.y.toNat] :=
    List.getD_eq_getElem _ _ hylt'
  unfold instruction? pyNth
  rw [if_pos hy0, List.getElem?_eq_getElem hylt']
  simp only [Option.some_bind]
  rw [if_pos hx0, ← hrow, List.getElem?_eq_getElem hxlt',
    List.getD_eq_getElem _ _ hxlt']

theorem is_valid_congr {m1 m : Machine} (hc : m1.code = m.code) (x y : Int) :
    is_valid m1 x y = is_valid m x y := by
  unfold is_valid
  rw [hc]

theorem move_true_elim {m m1 : Machine} (h : move m = (m1, true)) :
    is_valid m (m.x + m.dx) (m.y + m.dy) = true ∧
      m1 = { m with x := m.x + m.dx, y := m.y + m.dy } := by
  unfold move at h
  split_ifs at h with h1 h2
  · injection h with h3 h4
    simp at h4
  · injection h with h3 h4
    exact ⟨h2, h3.symm⟩
  · injection h with h3 h4
    simp at h4

theorem move_false_elim {m m1 : Machine} (h : move m = (m1, false)) :
    m1.x = m.x ∧ m1.y = m.y ∧ m1.code = m.code ∧ m1.stack = m.stack ∧
      m1.dx = m.dx ∧ m1.dy = m.dy := by
  unfold move at h
  split_ifs at h with h1 h2
  · injection h with h3 h4
    subst h3
    exact ⟨rfl, rfl, rfl, rfl, rfl, rfl⟩
  · injection h with h3 h4
    simp at h4
  · injection h with h3 h4
    subst h3
    exact ⟨rfl, rfl, rfl, rfl, rfl, rfl⟩

theorem mu_update (m : Machine) (a b : Int) :
    mu { m with x := a, y := b } =
      (if 0 < m.dx then maxRowLen m - a.toNat else a.toNat) +
        (if 0 < m.dy then m.code.length - b.toNat else b.toNat) := rfl

theorem mu_decreases {m m1 : Machine} (hval : is_valid m m.x m.y = true)
    (hu : unitDir m) (hmv : move m = (m1, true)) : mu m1 < mu m := by
  obtain ⟨hv2, rfl⟩ := move_true_elim hmv
  obtain ⟨hy0, hylt, hx0, hxlt⟩ := is_valid_iff.mp hval
  obtain ⟨hy0d, hyltd, hx0d, hxltd⟩ := is_valid_iff.mp hv2
  have hrl : (m.code.getD m.y.toNat []).length ≤ maxRowLen m :=
    rowLen_le_maxRowLen (by omega)
  rw [mu_update]
  unfold mu
  rcases hu with ⟨h1, h2⟩ | ⟨h1, h2⟩ | ⟨h1, h2⟩ | ⟨h1, h2⟩
  · rw [h1] at hx0d
    rw [h1, h2]
    norm_num
    omega
  · rw [h1, h2] at hxltd
    simp only [add_zero] at hxltd
    rw [h1, h2]
    norm_num
    omega
  · rw [h2] at hy0d
    rw [h1, h2]
    norm_num
    omega
  · rw [h2] at hyltd
    rw [h1, h2]
    norm_num
    omega

theorem mu_lt_jumpBound {m : Machine} (hval : is_valid m m.x m.y = true) :
    mu m < jumpBound m := by
  obtain ⟨hy0, hylt, hx0, hxlt⟩ := is_valid_iff.mp hval
  have hrl : (m.code.getD m.y.toNat []).length ≤ maxRowLen m :=
    rowLen_le_maxRowLen (by omega)
  unfold mu jumpBound
  split_ifs <;> omega

theorem jumpLoop_succ (fuel : Nat) (m : Machine) :
    jumpLoop (fuel + 1) m =
      match m.stack with
      | [] => none
      | top :: _ =>
        match instruction? m with
        | none => none
        | some v =>
          if v = top then some m
          else
            match move m with
            | (m1, true) => jumpLoop fuel m1
            | (m1, false) =>
              some { m1 with error := some Err.jumpedOutOfBounds } := rfl

theorem jumpLoop_spec : ∀ (fuel : Nat) (m : Machine), mu m < fuel →
    is_valid m m.x m.y = true → unitDir m → m.stack ≠ [] →
    ∃ m', jumpLoop fuel m = some m' ∧ m'.stack = m.stack ∧
      m'.code = m.code ∧
      (m'.error = some Err.jumpedOutOfBounds ∨
        ∃ t, m'.stack.head? = some t ∧ instruction? m' = some t) := by
  intro fuel
  induction fuel with
  | zero => intro m hmu; omega
  | succ fuel ih =>
    intro m hmu hval hu hs
    obtain ⟨top, rest, hstk⟩ := List.exists_cons_of_ne_nil hs
    have hinstr := instruction?_of_valid hval
    by_cases hvt : (m.code.getD m.y.toNat []).getD m.x.toNat none = top
    · refine ⟨m, ?_, rfl, rfl, Or.inr ⟨top, by rw [hstk]; rfl, by
        rw [hinstr, hvt]⟩⟩
      rw [jumpLoop_succ, hstk, hinstr]
      simp only [if_pos hvt]
    · rcases hmv : move m with ⟨m1, b⟩
      cases b
      · refine ⟨{ m1 with error := some Err.jumpedOutOfBounds }, ?_, ?_, ?_,
          Or.inl rfl⟩
        · rw [jumpLoop_succ, hstk, hinstr]
          simp only [if_neg hvt, hmv]
        · exact (move_false_elim hmv).2.2.2.1
        · exact (move_false_elim hmv).2.2.1
      · obtain ⟨hv2, rfl⟩ := move_true_elim hmv
        have hstk1 : ({ m with x := m.x + m.dx, y := m.y + m.dy } :
            Machine).stack = m.stack := rfl
        have hcode1 : ({ m with x := m.x + m.dx, y := m.y + m.dy } :
            Machine).code = m.code := rfl
        have hval1 : is_valid { m with x := m.x + m.dx, y := m.y + m.dy }
            (m.x + m.dx) (m.y + m.dy) = true := by
          rw [is_valid_congr hcode1]
          exact hv2
        have hu1 : unitDir { m with x := m.x + m.dx, y := m.y + m.dy } := hu
        have hmu1 : mu { m with x := m.x + m.dx, y := m.y + m.dy } < fuel :=
          lt_of_lt_of_le (mu_decreases hval hu hmv) (by omega)
        obtain ⟨m', hrun, hstk', hcode', hpost⟩ :=
          ih _ hmu1 hval1 hu1 (by rw [hstk1, hstk]; simp)
        refine ⟨m', ?_, hstk'.trans hstk1, hcode'.trans hcode1, hpost⟩
        rw [jumpLoop_succ, hstk, hinstr]
        simp only [if_neg hvt, hmv]
        exact hrun

/-- C5. For every state whose direction is one of the four cardinal vectors
(the direction a jump instruction `H`/`L`/`K`/`J` has just set): with an
empty stack, `jump` sets the stack-underflow diagnostic and moves nothing;
with a non-empty stack the scan terminates — the fuel never runs out — and
either sets the out-of-bounds diagnostic or halts with the cursor on a cell
equal to the current stack top (the stack itself is unchanged). -/
theorem jump_terminates_spec (m : Machine) (hu : unitDir m) :
    (m.stack = [] →
      jump m = some { m with error := some Err.stackUnderflow }) ∧
    (m.stack ≠ [] → ∃ m', jump m = some m' ∧ m'.stack = m.stack ∧
      (m'.error = some Err.jumpedOutOfBounds ∨
        ∃ t, m'.stack.head? = some t ∧ instruction? m' = some t)) := by
  constructor
  · intro hs
    unfold jump
    rw [hs]
  · intro hs
    obtain ⟨top, rest, hstk⟩ := List.exists_cons_of_ne_nil hs
    rcases hmv : move m with ⟨m1, b⟩
    cases b
    · refine ⟨{ m1 with error := some Err.jumpedOutOfBounds }, ?_,
        (move_false_elim hmv).2.2.2.1, Or.inl rfl⟩
      unfold jump
      rw [hstk]
      simp only [hmv]
    · obtain ⟨hv2, rfl⟩ := move_true_elim hmv
      have hstk1 : ({ m with x := m.x + m.dx, y := m.y + m.dy } :
          Machine).stack = m.stack := rfl
      have hcode1 : ({ m with x := m.x + m.dx, y := m.y + m.dy } :
          Machine).code = m.code := rfl
      have hval1 : is_valid { m with x := m.x + m.dx, y := m.y + m.dy }
          (m.x + m.dx) (m.y + m.dy) = true := by
        rw [is_valid_congr hcode1]
        exact hv2
      have hu1 : unitDir { m with x := m.x + m.dx, y := m.y + m.dy } := hu
      have hmu1 : mu { m with x := m.x + m.dx, y := m.y + m.dy } <
          jumpBound m := by
        have h6 := mu_lt_jumpBound hval1
        have h7 : jumpBound { m with x := m.x + m.dx, y := m.y + m.dy } =
            jumpBound m := rfl
        rw [h7] at h6
        exact h6
      obtain ⟨m', hrun, hstk', hcode', hpost⟩ :=
        jumpLoop_spec (jumpBound m) _ hmu1 hval1 hu1
          (by rw [hstk1, hstk]; simp)
      refine ⟨m', ?_, hstk'.trans hstk1, hpost⟩
      unfold jump
      rw [hstk]
      simp only [hmv]
      exact hrun

/-- Witness for C5: a jump to the right that lands on the matching cell. -/
theorem jump_terminates_spec_witness :
    unitDir (⟨[[some 76, some 32, some 104]], 0, 0, 1, 0, [some 104], [], [],
        false, none⟩ : Machine) ∧
      ∃ m', jump (⟨[[some 76, some 32, some 104]], 0, 0, 1, 0, [some 104],
          [], [], false, none⟩ : Machine) = some m' ∧
        m'.stack = [some 104] ∧
        (m'.error = some Err.jumpedOutOfBounds ∨
          ∃ t, m'.stack.head? = some t ∧ instruction? m' = some t) :=
  ⟨by decide,
    (jump_terminates_spec _ (by decide)).2 (by decide)⟩

/-! ## C9: reachable non-blocked states have a valid cursor -/

/-- The list of row lengths; every state-transforming operation of the
interpreter preserves it. -/
def rowLens (m : Machine) : List Nat := m.code.map List.length

theorem length_getD_eq (l : List (List α)) (i : Nat) :
    (l.getD i []).length = (l.map List.length).getD i 0 := by
  rw [List.getD_eq_getElem?_getD, List.getD_eq_getElem?_getD,
    List.getElem?_map]
  rcases l[i]? with _ | row <;> rfl

theorem code_length_eq_of_rowLens {m1 m : Machine}
    (h : rowLens m1 = rowLens m) : m1.code.length = m.code.length := by
  have h2 := congrArg List.length h
  simpa [rowLens] using h2

theorem is_valid_eq_of_rowLens {m1 m : Machine} (h : rowLens m1 = rowLens m)
    (x y : Int) : is_valid m1 x y = is_valid m x y := by
  unfold is_valid
  rw [code_length_eq_of_rowLens h, length_getD_eq, length_getD_eq]
  unfold rowLens at h
  rw [h]

theorem good_of_rowLens {m m2 : Machine} (hr : rowLens m2 = rowLens m)
    (hx : m2.x = m.x) (hy : m2.y = m.y)
    (hval : is_valid m m.x m.y = true) :
    rowLens m2 = rowLens m ∧ is_valid m2 m2.x m2.y = true := by
  refine ⟨hr, ?_⟩
  rw [is_valid_eq_of_rowLens hr, hx, hy]
  exact hval

theorem good_of_same {m m2 : Machine} (hc : m2.code = m.code)
    (hx : m2.x = m.x) (hy : m2.y = m.y)
    (hval : is_valid m m.x m.y = true) :
    rowLens m2 = rowLens m ∧ is_valid m2 m2.x m2.y = true :=
  good_of_rowLens (by unfold rowLens; rw [hc]) hx hy hval

theorem set_getElem_self (l : List Nat) (i : Nat) (h : i < l.length) :
    l.set i l[i] = l := by
  refine List.ext_getElem (by simp) fun j h1 h2 => ?_
  rw [List.getElem_set]
  split
  · simp_all
  · rfl

theorem put_rowLens (m : Machine) (v : Val) (x y : Int) :
    rowLens (put m v x y) = rowLens m ∧ (put m v x y).x = m.x ∧
      (put m v x y).y = m.y := by
  unfold put
  split_ifs with h
  · refine ⟨?_, rfl, rfl⟩
    obtain ⟨hy0, hylt, hx0, hxlt⟩ := is_valid_iff.mp h
    have hylt' : y.toNat < m.code.length := by omega
    unfold rowLens
    rw [List.map_set, List.length_set, length_getD_eq]
    have hylt2 : y.toNat < (m.code.map List.length).length := by
      simpa using hylt'
    rw [List.getD_eq_getElem _ _ hylt2]
    exact set_getElem_self _ _ hylt2
  · exact ⟨rfl, rfl, rfl⟩

theorem printChar_same {m m2 : Machine} {v : Val}
    (h : printChar m v = some m2) :
    m2.code = m.code ∧ m2.x = m.x ∧ m2.y = m.y := by
  unfold printChar at h
  split at h
  · cases h
  · split_ifs at h <;> (injection h with h5; subst h5; exact ⟨rfl, rfl, rfl⟩)

theorem add_same {m m2 : Machine} {v : Val} (h : add m v = some m2) :
    m2.code = m.code ∧ m2.x = m.x ∧ m2.y = m.y := by
  unfold add at h
  split at h
  · injection h with h5
    subst h5
    exact ⟨rfl, rfl, rfl⟩
  · split at h
    · injection h with h5
      subst h5
      exact ⟨rfl, rfl, rfl⟩
    · cases h

theorem subtract_same {m m2 : Machine} {v : Val} (h : subtract m v = some m2) :
    m2.code = m.code ∧ m2.x = m.x ∧ m2.y = m.y := by
  unfold subtract at h
  split at h
  · injection h with h5
    subst h5
    exact ⟨rfl, rfl, rfl⟩
  · split at h
    · injection h with h5
      subst h5
      exact ⟨rfl, rfl, rfl⟩
    · cases h

theorem delete_same (m : Machine) :
    (delete m).code = m.code ∧ (delete m).x = m.x ∧ (delete m).y = m.y := by
  unfold delete
  split <;> exact ⟨rfl, rfl, rfl⟩

theorem duplicate_same (m : Machine) :
    (duplicate m).code = m.code ∧ (duplicate m).x = m.x ∧
      (duplicate m).y = m.y := by
  unfold duplicate
  split <;> exact ⟨rfl, rfl, rfl⟩

theorem jumpLoop_code_valid : ∀ (fuel : Nat) (m m2 : Machine),
    jumpLoop fuel m = some m2 →
    m2.code = m.code ∧
      (is_valid m m.x m.y = true → is_valid m2 m2.x m2.y = true) := by
  intro fuel
  induction fuel with
  | zero => intro m m2 h; cases h
  | succ fuel ih =>
    intro m m2 h
    rw [jumpLoop_succ] at h
    split at h
    · cases h
    · split at h
      · cases h
      · split at h
        · injection h with h5
          subst h5
          exact ⟨rfl, fun hv => hv⟩
        · split at h
          next m1 heq =>
            obtain ⟨hv2, rfl⟩ := move_true_elim heq
            obtain ⟨hc, himp⟩ := ih _ _ h
            refine ⟨hc.trans rfl, fun _ => ?_⟩
            exact himp hv2
          next m1 heq =>
            injection h with h5
            subst h5
            obtain ⟨hx, hy, hc, -, -, -⟩ := move_false_elim heq
            refine ⟨hc, fun hv => ?_⟩
            show is_valid m1 m1.x m1.y = true
            rw [is_valid_congr hc, hx, hy]
            exact hv

theorem jump_preserves {m m2 : Machine} (hd : jump m = some m2) :
    m2.code = m.code ∧
      (is_valid m m.x m.y = true → is_valid m2 m2.x m2.y = true) := by
  unfold jump at hd
  split at hd
  · injection hd with h5
    subst h5
    exact ⟨rfl, fun hv => hv⟩
  · split at hd
    next m1 heq =>
      injection hd with h5
      subst h5
      obtain ⟨hx, hy, hc, -, -, -⟩ := move_false_elim heq
      refine ⟨hc, fun hv => ?_⟩
      show is_valid m1 m1.x m1.y = true
      rw [is_valid_congr hc, hx, hy]
      exact hv
    next m1 heq =>
      obtain ⟨hv2, rfl⟩ := move_true_elim heq
      obtain ⟨hc, himp⟩ := jumpLoop_code_valid _ _ _ hd
      refine ⟨hc.trans rfl, fun _ => ?_⟩
      exact himp hv2

theorem dispatch_jump_good {m mb m2 : Machine} (hd : jump mb = some m2)
    (hcode : mb.code = m.code) (hx : mb.x = m.x) (hy : mb.y = m.y)
    (hval : is_valid m m.x m.y = true) :
    rowLens m2 = rowLens m ∧ is_valid m2 m2.x m2.y = true := by
  obtain ⟨hc2, himp⟩ := jump_preserves hd
  refine ⟨by unfold rowLens; rw [hc2, hcode], ?_⟩
  apply himp
  rw [is_valid_congr hcode, hx, hy]
  exact hval

/-- Every successful dispatch preserves the row lengths of the grid and the
validity of the cursor position. -/
theorem dispatch_good {m m2 : Machine} {c : Int} (hd : dispatch m c = some m2)
    (hval : is_valid m m.x m.y = true) :
    rowLens m2 = rowLens m ∧ is_valid m2 m2.x m2.y = true := by
  unfold dispatch at hd
  by_cases hc0 : c = 104
  · rw [if_pos hc0] at hd
    injection hd with h5; subst h5; exact good_of_same rfl rfl rfl hval
  rw [if_neg hc0] at hd
  by_cases hc1 : c = 108
  · rw [if_pos hc1] at hd
    injection hd with h5; subst h5; exact good_of_same rfl rfl rfl hval
  rw [if_neg hc1] at hd
  by_cases hc2 : c = 107
  · rw [if_pos hc2] at hd
    injection hd with h5; subst h5; exact good_of_same rfl rfl rfl hval
  rw [if_neg hc2] at hd
  by_cases hc3 : c = 106
  · rw [if_pos hc3] at hd
    injection hd with h5; subst h5; exact good_of_same rfl rfl rfl hval
  rw [if_neg hc3] at hd
  by_cases hc4 : c = 72
  · rw [if_pos hc4] at hd
    exact dispatch_jump_good hd rfl rfl rfl hval
  rw [if_neg hc4] at hd
  by_cases hc5 : c = 76
  · rw [if_pos hc5] at hd
    exact dispatch_jump_good hd rfl rfl rfl hval
  rw [if_neg hc5] at hd
  by_cases hc6 : c = 75
  · rw [if_pos hc6] at hd
    exact dispatch_jump_good hd rfl rfl rfl hval
  rw [if_neg hc6] at hd
  by_cases hc7 : c = 74
  · rw [if_pos hc7] at hd
    exact dispatch_jump_good hd rfl rfl rfl hval
  rw [if_neg hc7] at hd
  by_cases hc8 : c = 80
  · rw [if_pos hc8] at hd
    obtain ⟨hc, hx, hy⟩ := printChar_same hd
    exact good_of_same hc hx hy hval
  rw [if_neg hc8] at hd
  by_cases hc9 : c = 112
  · rw [if_pos hc9] at hd
    obtain ⟨hc, hx, hy⟩ := printChar_same hd
    exact good_of_same hc hx hy hval
  rw [if_neg hc9] at hd
  by_cases hc10 : c = 71
  · rw [if_pos hc10] at hd
    rcases hq : m.stdin with _ | ⟨ch, rest⟩ <;> simp only [hq] at hd <;>
        (injection hd with h5; subst h5)
    · exact good_of_same rfl rfl rfl hval
    · obtain ⟨hr, hx, hy⟩ := put_rowLens { m with stdin := rest } (some ch)
        m.x (m.y - 1)
      exact good_of_rowLens (hr.trans rfl) hx hy hval
  rw [if_neg hc10] at hd
  by_cases hc11 : c = 103
  · rw [if_pos hc11] at hd
    rcases hq : m.stdin with _ | ⟨ch, rest⟩ <;> simp only [hq] at hd <;>
        (injection hd with h5; subst h5)
    · exact good_of_same rfl rfl rfl hval
    · obtain ⟨hr, hx, hy⟩ := put_rowLens { m with stdin := rest } (some ch)
        m.x (m.y + 1)
      exact good_of_rowLens (hr.trans rfl) hx hy hval
  rw [if_neg hc11] at hd
  by_cases hc12 : c = 68
  · rw [if_pos hc12] at hd
    injection hd with h5
    subst h5
    obtain ⟨hc, hx, hy⟩ := delete_same m
    exact good_of_same hc hx hy hval
  rw [if_neg hc12] at hd
  by_cases hc13 : c = 100
  · rw [if_pos hc13] at hd
    injection hd with h5
    subst h5
    obtain ⟨hc, hx, hy⟩ := duplicate_same m
    exact good_of_same hc hx hy hval
  rw [if_neg hc13] at hd
  by_cases hc14 : c = 69
  · rw [if_pos hc14] at hd
    injection hd with h5
    subst h5
    obtain ⟨hr, hx, hy⟩ := put_rowLens m (some 4) m.x (m.y - 1)
    exact good_of_rowLens hr hx hy hval
  rw [if_neg hc14] at hd
  by_cases hc15 : c = 101
  · rw [if_pos hc15] at hd
    injection hd with h5
    subst h5
    obtain ⟨hr, hx, hy⟩ := put_rowLens m (some 4) m.x (m.y + 1)
    exact good_of_rowLens hr hx hy hval
  rw [if_neg hc15] at hd
  by_cases hc16 : c = 70
  · rw [if_pos hc16] at hd
    rcases hq : m.stack with _ | ⟨v, rest⟩ <;> simp only [hq] at hd <;>
        (injection hd with h5; subst h5)
    · exact good_of_same rfl rfl rfl hval
    · obtain ⟨hr, hx, hy⟩ := put_rowLens { m with stack := rest } v
        m.x (m.y - 1)
      exact good_of_rowLens (hr.trans rfl) hx hy hval
  rw [if_neg hc16] at hd
  by_cases hc17 : c = 102
  · rw [if_pos hc17] at hd
    rcases hq : m.stack with _ | ⟨v, rest⟩ <;> simp only [hq] at hd <;>
        (injection hd with h5; subst h5)
    · exact good_of_same rfl rfl rfl hval
    · obtain ⟨hr, hx, hy⟩ := put_rowLens { m with stack := rest } v
        m.x (m.y + 1)
      exact good_of_rowLens (hr.trans rfl) hx hy hval
  rw [if_neg hc17] at hd
  by_cases hc18 : c = 65
  · rw [if_pos hc18] at hd
    obtain ⟨hc, hx, hy⟩ := add_same hd
    exact good_of_same hc hx hy hval
  rw [if_neg hc18] at hd
  by_cases hc19 : c = 97
  · rw [if_pos hc19] at hd
    obtain ⟨hc, hx, hy⟩ := add_same hd
    exact good_of_same hc hx hy hval
  rw [if_neg hc19] at hd
  by_cases hc20 : c = 82
  · rw [if_pos hc20] at hd
    obtain ⟨hc, hx, hy⟩ := subtract_same hd
    exact good_of_same hc hx hy hval
  rw [if_neg hc20] at hd
  by_cases hc21 : c = 114
  · rw [if_pos hc21] at hd
    obtain ⟨hc, hx, hy⟩ := subtract_same hd
    exact good_of_same hc hx hy hval
  rw [if_neg hc21] at hd
  by_cases hc22 : c = 83
  · rw [if_pos hc22] at hd
    injection hd with h5; subst h5; exact good_of_same rfl rfl rfl hval
  rw [if_neg hc22] at hd
  by_cases hc23 : c = 115
  · rw [if_pos hc23] at hd
    injection hd with h5; subst h5; exact good_of_same rfl rfl rfl hval
  rw [if_neg hc23] at hd
  by_cases hc24 : c = 88
  · rw [if_pos hc24] at hd
    split at hd
    · injection hd with h5; subst h5; exact good_of_same rfl rfl rfl hval
    · cases hd
    · injection hd with h5
      subst h5
      split <;> exact good_of_same rfl rfl rfl hval
  rw [if_neg hc24] at hd
  by_cases hc25 : c = 120
  · rw [if_pos hc25] at hd
    split at hd
    · injection hd with h5; subst h5; exact good_of_same rfl rfl rfl hval
    · cases hd
    · injection hd with h5
      subst h5
      split <;> exact good_of_same rfl rfl rfl hval
  rw [if_neg hc25] at hd
  by_cases hc26 : c = 35 ∧ m.x = 0 ∧ m.y = 0 ∧ get m 1 0 = some 33
  · rw [if_pos hc26] at hd
    injection hd with h5; subst h5; exact good_of_same rfl rfl rfl hval
  rw [if_neg hc26] at hd
  by_cases hc27 : c ≠ 113
  · rw [if_pos hc27] at hd
    injection hd with h5; subst h5; exact good_of_same rfl rfl rfl hval
  rw [if_neg hc27] at hd
  injection hd with h5; subst h5; exact good_of_same rfl rfl rfl hval

theorem dispatch_good_of_same {m mA m2 : Machine} {c : Int}
    (hd : dispatch mA c = some m2)
    (hA : mA.code = m.code) (hAx : mA.x = m.x) (hAy : mA.y = m.y)
    (hval : is_valid m m.x m.y = true) :
    rowLens m2 = rowLens m ∧ is_valid m2 m2.x m2.y = true := by
  have hvA : is_valid mA mA.x mA.y = true := by
    rw [is_valid_congr hA, hAx, hAy]
    exact hval
  obtain ⟨hr2, hv2⟩ := dispatch_good hd hvA
  have hrA : rowLens mA = rowLens m := by
    unfold rowLens
    rw [hA]
  exact ⟨hr2.trans hrA, hv2⟩

theorem move_fst_valid {m : Machine} (hval : is_valid m m.x m.y = true) :
    is_valid (move m).1 (move m).1.x (move m).1.y = true := by
  rcases hmv : move m with ⟨m1, b⟩
  cases b
  · obtain ⟨hx, hy, hc, -, -, -⟩ := move_false_elim hmv
    show is_valid m1 m1.x m1.y = true
    rw [is_valid_congr hc, hx, hy]
    exact hval
  · obtain ⟨hv2, rfl⟩ := move_true_elim hmv
    exact hv2

theorem move_fst_rowLens (m : Machine) :
    rowLens (move m).1 = rowLens m := by
  unfold rowLens
  rw [(move_preserves m).1]

/-- One `step` that returns a machine preserves the row lengths and keeps the
cursor on a valid cell. -/
theorem step_good {m m' : Machine} (hval : is_valid m m.x m.y = true)
    (hstep : step m = some m') :
    rowLens m' = rowLens m ∧ is_valid m' m'.x m'.y = true := by
  unfold step at hstep
  split at hstep
  · cases hstep
  · injection hstep with h5
    subst h5
    exact ⟨rfl, hval⟩
  · split at hstep
    · cases hstep
    · cases hstep
    · rename_i c hic
      simp only at hstep
      by_cases h1 : c < 0 ∨ 1114111 < c
      · rw [if_pos h1] at hstep
        exact Option.noConfusion hstep
      rw [if_neg h1] at hstep
      by_cases h2 : ¬(32 ≤ c ∧ c ≤ 126)
      · rw [if_pos h2] at hstep
        split at hstep
        · cases hstep
        · rename_i m2 hd
          split at hstep
          · cases hstep
          · injection hstep with h5
            subst h5
            exact dispatch_good_of_same hd rfl rfl rfl hval
          · injection hstep with h5
            subst h5
            obtain ⟨hr2, hv2⟩ := dispatch_good_of_same hd rfl rfl rfl hval
            exact ⟨(move_fst_rowLens m2).trans hr2, move_fst_valid hv2⟩
      rw [if_neg h2] at hstep
      split at hstep
      · cases hstep
      · rename_i m2 hd
        split at hstep
        · cases hstep
        · injection hstep with h5
          subst h5
          exact dispatch_good_of_same hd rfl rfl rfl hval
        · injection hstep with h5
          subst h5
          obtain ⟨hr2, hv2⟩ := dispatch_good_of_same hd rfl rfl rfl hval
          exact ⟨(move_fst_rowLens m2).trans hr2, move_fst_valid hv2⟩

theorem blocked?_none_iff {m : Machine} :
    blocked? m = none ↔ instruction? m = none := by
  unfold blocked? done?
  rcases h : instruction? m with _ | v <;> simp [h]

theorem padRow_length (src : List Nat) : (padRow src).length = COLUMNS := by
  unfold padRow
  simp

/-- The invariant maintained by every public operation: all rows are exactly
`COLUMNS` cells wide, and either the cursor is on a valid cell or reading the
cursor cell raises (the empty-grid corner, where `blocked` itself raises). -/
def Inv (m : Machine) : Prop :=
  (∀ r ∈ m.code, r.length = COLUMNS) ∧
    (is_valid m m.x m.y = true ∨ blocked? m = none)

theorem rows_of_rowLens {m m' : Machine}
    (h80 : ∀ r ∈ m.code, r.length = COLUMNS)
    (hr : rowLens m' = rowLens m) : ∀ r ∈ m'.code, r.length = COLUMNS := by
  intro r hrm
  have h5 : r.length ∈ rowLens m' := List.mem_map.mpr ⟨r, hrm, rfl⟩
  rw [hr] at h5
  obtain ⟨r2, hr2, he⟩ := List.mem_map.mp h5
  rw [← he]
  exact h80 r2 hr2

theorem inv_mkMachine (code : List (List Nat)) : Inv (mkMachine code) := by
  constructor
  · intro r hr
    obtain ⟨l, -, rfl⟩ := List.mem_map.mp hr
    exact padRow_length l
  · rcases code with _ | ⟨l, ls⟩
    · exact Or.inr rfl
    · left
      rw [is_valid_iff]
      refine ⟨le_refl 0, by simp [mkMachine], le_refl 0, ?_⟩
      show (0 : Int) < (((mkMachine (l :: ls)).code.getD (0 : Int).toNat
        []).length : Int)
      have h5 : (mkMachine (l :: ls)).code.getD (0 : Int).toNat [] =
          padRow l := rfl
      rw [h5, padRow_length]
      norm_num [COLUMNS]

theorem inv_input_char {m : Machine} (h : Inv m) (ch : Int) :
    Inv (input_char m ch) := by
  obtain ⟨h80, hdisj⟩ := h
  refine ⟨h80, ?_⟩
  rcases hdisj with hval | hnone
  · exact Or.inl hval
  · right
    rw [blocked?_none_iff]
    rw [blocked?_none_iff] at hnone
    exact hnone

theorem inv_input_string {m : Machine} (h : Inv m) (s : List Nat) :
    Inv (input_string m s) := by
  unfold input_string
  induction s generalizing m with
  | nil => exact h
  | cons a s ih => exact ih (inv_input_char h (a : Int))

theorem inv_step {m m' : Machine} (h : Inv m) (hstep : step m = some m') :
    Inv m' := by
  obtain ⟨h80, hdisj⟩ := h
  rcases hdisj with hval | hnone
  · obtain ⟨hr, hv'⟩ := step_good hval hstep
    exact ⟨rows_of_rowLens h80 hr, Or.inl hv'⟩
  · have h5 : step m = none := by
      unfold step
      rw [hnone]
    rw [h5] at hstep
    cases hstep

theorem reachable_inv {m : Machine} (h : Reachable m) : Inv m := by
  induction h with
  | init code => exact inv_mkMachine code
  | step _ hstep ih => exact inv_step ih hstep
  | input_char ch _ ih => exact inv_input_char ih ch
  | input_string s _ ih => exact inv_input_string ih s

/-- C9. In every state reachable from construction through `step`,
`input_char` and `input_string` in which the machine is not blocked, the
cursor is a valid grid coordinate: `0 ≤ y < row count` and `0 ≤ x < 80`;
every cursor movement was bounds-checked before being committed. -/
theorem reachable_cursor_valid (m : Machine) (hr : Reachable m)
    (hb : blocked? m = some false) :
    0 ≤ m.x ∧ m.x < 80 ∧ 0 ≤ m.y ∧ m.y < (m.code.length : Int) := by
  obtain ⟨h80, hdisj⟩ := reachable_inv hr
  rcases hdisj with hval | hnone
  · obtain ⟨hy0, hylt, hx0, hxlt⟩ := is_valid_iff.mp hval
    have hylt' : m.y.toNat < m.code.length := by omega
    have h5 : (m.code.getD m.y.toNat []).length = COLUMNS := by
      rw [List.getD_eq_getElem _ _ hylt']
      exact h80 _ (List.getElem_mem hylt')
    rw [h5] at hxlt
    refine ⟨hx0, ?_, hy0, hylt⟩
    have h6 : (COLUMNS : Int) = 80 := rfl
    omega
  · rw [hnone] at hb
    cases hb

/-- Witness for C9 at the freshly constructed machine for the line `"h"`. -/
theorem reachable_cursor_valid_witness :
    blocked? (mkMachine [[104]]) = some false ∧
      (0 ≤ (mkMachine [[104]]).x ∧ (mkMachine [[104]]).x < 80 ∧
        0 ≤ (mkMachine [[104]]).y ∧
        (mkMachine [[104]]).y < ((mkMachine [[104]]).code.length : Int)) :=
  ⟨by decide, reachable_cursor_valid _ (Reachable.init _) (by decide)⟩

end Arghonaut
